import Mathlib

/-
Verification development for the Private-Blockchain repository
(src/block.py, src/blockchain.py, src/api.py, src/load_power_data.py).

The Python core is shallowly embedded below.  Design decisions:

* SHA-256 itself is kept abstract: every operation that hashes is
  parameterised by an oracle `sha : String → Nat` standing for
  `int(hashlib.sha256(bytes).hexdigest(), 16)`.  The digest input strings
  are built exactly as the source builds them (decimal nonce, Python
  `str()` rendering of the hashable power-data dict, hex rendering of the
  previous hash, timestamp text, decimal block number).
* Hex digests are modelled by their integer value (`Nat`); the source
  round-trips between the 64-character hex string and the integer with
  `hexdigest()` / `int(_, 16)`, which is a bijection below 2^256, so
  comparisons `int(h, 16) < t` and string equality of digests map to `Nat`
  comparisons.  Where the digest appears inside a hashed string the hex
  rendering `hexDigest` is used.
* The unbounded `while` loop of `Block.mine` is given explicit fuel; a
  `none` result means the search has not terminated within the fuel.
* `datetime.now()` values are external inputs; they are modelled as the
  strings `str(...)` produces, passed in as parameters.
* Numpy float vectors appear in the code only through `.tolist()` inside
  `str(...)`; they are modelled by the textual forms of their elements.
* The network in `find_longest_chain` is external: the loop over
  `self.nodes` with each node's HTTP result becomes a list of peer
  responses, `none` standing for a non-200 status, `some (chain, length)`
  for a decoded body.  The source's local variables `chain` / `length`
  keep their previous loop iteration's values when a fetch fails; reading
  them before any successful fetch is a Python `NameError`, modelled as
  `Except.error ()`.
-/

namespace PBC

/-- One power-telemetry record (the `power_data` dict of `Block.__init__`,
src/block.py lines 14-22).  Vector entries are the textual forms of the
floats (`.tolist()` elements as rendered inside `str(...)`); `metadataStr`
is the `str()` rendering of the metadata dict. -/
structure PowerData where
  timestampStr : String
  voltage_vector : List String
  current_vector : List String
  power_vector : List String
  node_id : String
  metadataStr : String
deriving DecidableEq

/-- A block (src/block.py lines 5-29).  `hashid` and `previous_hash` are hex
digests modelled by their integer values; `timestamp` is the text of the
`datetime.now()` captured at construction. -/
structure Block where
  block_number : Nat
  power_data : PowerData
  previous_hash : Nat
  nonce : Nat
  hashid : Nat
  timestamp : String
deriving DecidableEq

/-- The difficulty target `2**(256 - difficulty)` (src/block.py line 54,
src/blockchain.py lines 149 and 227). -/
def target (difficulty : Nat) : Nat := 2 ^ (256 - difficulty)

def quoteCh : String := "\x27"

def lbrace : String := "\x7b"

def rbrace : String := "\x7d"

def commaSep : String := ", "

def colonSep : String := ": "

def hexPadChar : Char := Char.ofNat 48

/-- The 64-character zero-padded lowercase rendering `hexdigest()` gives a
digest value. -/
def hexDigest (n : Nat) : String :=
  let s := String.mk (Nat.toDigits 16 n)
  String.mk (List.replicate (64 - s.length) hexPadChar) ++ s

/-- Python's `str(...)` of a `.tolist()` list. -/
def pyList (v : List String) : String :=
  "[" ++ String.intercalate commaSep v ++ "]"

/-- Python's `str(hashable_data)` for the dict built in `Block.mine`
(src/block.py lines 37-44): timestamp stringified, the three vectors as
lists, `node_id` and the metadata dict preserved, in that key order. -/
def powerDataRepr (p : PowerData) : String :=
  lbrace ++ quoteCh ++ "timestamp" ++ quoteCh ++ colonSep ++ quoteCh ++ p.timestampStr ++ quoteCh
    ++ commaSep ++ quoteCh ++ "voltage_vector" ++ quoteCh ++ colonSep ++ pyList p.voltage_vector
    ++ commaSep ++ quoteCh ++ "current_vector" ++ quoteCh ++ colonSep ++ pyList p.current_vector
    ++ commaSep ++ quoteCh ++ "power_vector" ++ quoteCh ++ colonSep ++ pyList p.power_vector
    ++ commaSep ++ quoteCh ++ "node_id" ++ quoteCh ++ colonSep ++ quoteCh ++ p.node_id ++ quoteCh
    ++ commaSep ++ quoteCh ++ "metadata" ++ quoteCh ++ colonSep ++ p.metadataStr ++ rbrace

/-- The byte string fed to sha256 on each mining attempt (src/block.py
lines 46-52 and 57-63): decimal nonce, then `str(hashable_data)`, then the
previous hash text, then the creation timestamp text, then the decimal
block number. -/
def digestInput (b : Block) : String :=
  Nat.repr b.nonce ++ powerDataRepr b.power_data ++ hexDigest b.previous_hash
    ++ b.timestamp ++ Nat.repr b.block_number

/-- `Block.__init__` (src/block.py lines 6-29) with the default nonce 0.
The source leaves `hashid` an unfinalised hasher object until `mine`
finalises it; the placeholder value 0 is never read before `mine` stores
the real digest. -/
def mkBlock (block_number : Nat) (power_data : PowerData) (previous_hash : Nat)
    (ts : String) : Block :=
  { block_number := block_number, power_data := power_data, previous_hash := previous_hash,
    nonce := 0, hashid := 0, timestamp := ts }

/-- `Block.mine` (src/block.py lines 31-66): hash the current nonce's
digest input, then `while int(hexdigest, 16) > 2**(256 - difficulty)`
increment the nonce and rehash; finally store the accepted digest in
`hashid`.  Note the source keeps searching only while the digest is
STRICTLY greater than the target, so a digest exactly equal to the target
is accepted.  `fuel` bounds the unbounded source loop; `none` means the
search has not terminated within the fuel. -/
def mine (sha : String → Nat) (difficulty : Nat) : Nat → Block → Option Block
  | 0, _ => none
  | fuel + 1, b =>
    if sha (digestInput b) > target difficulty then
      mine sha difficulty fuel { b with nonce := b.nonce + 1 }
    else
      some { b with hashid := sha (digestInput b) }

/-- The ledger state (src/blockchain.py lines 90-102).  The peer set is
external input to `find_longest_chain` and is not part of the state the
claims inspect. -/
structure Blockchain where
  difficulty : Nat
  chain : List Block
  pending_power_data : List PowerData
deriving DecidableEq

/-- Python list indexing as used by `proof_of_work` (`self.chain[previous]`
with a possibly negative index): negative indices count from the end; an
out-of-range index is an IndexError, returned as `none` (every call in
this development indexes a non-empty chain in range). -/
def pyIndex (l : List Block) (i : Int) : Option Block :=
  if i < 0 then
    if (l.length : Int) + i < 0 then none
    else l.get? ((l.length : Int) + i).toNat
  else
    l.get? i.toNat

/-- `Blockchain.proof_of_work` (src/blockchain.py lines 140-149): the hash
value must be strictly below the difficulty target and the block's
`previous_hash` must equal the hash of `self.chain[previous]` (default
previous = -1, the chain tail). -/
def proof_of_work (s : Blockchain) (block : Block) (previous : Int) : Bool :=
  match pyIndex s.chain previous with
  | some prev => decide (block.hashid < target s.difficulty ∧ block.previous_hash = prev.hashid)
  | none => false

/-- Result of `add_to_chain`: the appended block, or the failure-string
sentinel of src/blockchain.py line 165. -/
inductive AddResult where
  | added (b : Block)
  | failed
deriving DecidableEq

/-- `Blockchain.add_to_chain` (src/blockchain.py lines 151-165): gate the
block through `proof_of_work` against the tail; append on success, reject
without touching the state on failure. -/
def add_to_chain (s : Blockchain) (b : Block) : AddResult × Blockchain :=
  if proof_of_work s b (-1) then
    (AddResult.added b, { s with chain := s.chain ++ [b] })
  else
    (AddResult.failed, s)

/-- `Blockchain.add_power_data` (src/blockchain.py lines 167-182): append
the constructed record to the pending queue. -/
def add_power_data (s : Blockchain) (pd : PowerData) : Blockchain :=
  { s with pending_power_data := s.pending_power_data ++ [pd] }

/-- Result of `mine_power_data`: the `add_to_chain` outcome, or the
"No pending power data to mine" sentinel of src/blockchain.py line 194. -/
inductive MineOutcome where
  | noPending
  | fromAdd (r : AddResult)
deriving DecidableEq

/-- `Blockchain.mine_power_data` (src/blockchain.py lines 184-194): if the
pending queue is non-empty, `pop()` its LAST record, build a block at
position `len(chain) + 1` referencing the tail's hash, mine it and submit
it to `add_to_chain`.  `ts` is the `datetime.now()` text captured by the
block constructor.  `none` models either mining not terminating within
`fuel`, or the (unreachable while the genesis invariant holds) IndexError
of `self.chain[-1]` on an empty chain. -/
def mine_power_data (sha : String → Nat) (fuel : Nat) (s : Blockchain) (ts : String) :
    Option (MineOutcome × Blockchain) :=
  if 0 < s.pending_power_data.length then
    match s.pending_power_data.getLast?, s.chain.getLast? with
    | some data, some tl =>
      let s1 : Blockchain := { s with pending_power_data := s.pending_power_data.dropLast }
      match mine sha s.difficulty fuel (mkBlock (s.chain.length + 1) data tl.hashid ts) with
      | some mined =>
        some (MineOutcome.fromAdd (add_to_chain s1 mined).1, (add_to_chain s1 mined).2)
      | none => none
    | _, _ => none
  else
    some (MineOutcome.noPending, s)

/-- The walk of `validate_another_chain` (src/blockchain.py lines 214-231)
from index 1 upward, carrying the predecessor block: at each step check
`int(block.hashid, 16) < 2**(256 - self.difficulty)` and
`block.previous_hash == chain[block_index - 1].hashid`; stop with False at
the first failure. -/
def validateWalk (s : Blockchain) : Block → List Block → Bool
  | _, [] => true
  | prev, block :: rest =>
    if block.hashid < target s.difficulty ∧ block.previous_hash = prev.hashid then
      validateWalk s block rest
    else false

/-- `Blockchain.validate_another_chain` (src/blockchain.py lines 214-231):
the while loop starts at `block_index = 1`, so a chain of length 0 or 1 is
vacuously valid. -/
def validate_another_chain (s : Blockchain) (chain : List Block) : Bool :=
  match chain with
  | [] => true
  | g :: rest => validateWalk s g rest

/-- The walk of `validate_chain` (src/blockchain.py lines 196-212) over the
blocks from index `block_index` on, calling
`proof_of_work(block, block_index - 1)` at each step. -/
def validateChainGo (s : Blockchain) : Nat → List Block → Bool
  | _, [] => true
  | block_index, block :: rest =>
    if proof_of_work s block ((block_index : Int) - 1) then
      validateChainGo s (block_index + 1) rest
    else false

/-- `Blockchain.validate_chain` (src/blockchain.py lines 196-212): walk
`self.chain` from index 1. -/
def validate_chain (s : Blockchain) : Bool :=
  validateChainGo s 1 (s.chain.drop 1)

/-- One peer's answer during `find_longest_chain`: `none` for a non-200
status (or transport failure), `some (chain, length)` for the decoded
`Chain` and reported `Length` fields of a 200 response. -/
abbrev PeerResponse := Option (List Block × Nat)

/-- The loop of `Blockchain.find_longest_chain` (src/blockchain.py lines
247-257).  `ld` carries the last successfully decoded `(chain, length)`
pair: on a failed fetch the source's local variables `chain` and `length`
silently keep their previous iteration's values, and if no fetch has
succeeded yet, reading them raises a NameError (`Except.error ()`). -/
def findLongestChainAux (s : Blockchain) :
    Option (List Block × Nat) → Nat → Option (List Block) → List PeerResponse →
    Except Unit (Option (List Block))
  | _, _, new_chain, [] => Except.ok new_chain
  | ld, current_length, new_chain, r :: rest =>
    match (match r with | some cl => some cl | none => ld) with
    | none => Except.error ()
    | some (c, l) =>
      if current_length < l ∧ validate_another_chain s c = true then
        findLongestChainAux s (some (c, l)) l (some c) rest
      else
        findLongestChainAux s (some (c, l)) current_length new_chain rest

/-- `Blockchain.find_longest_chain` (src/blockchain.py lines 233-263):
start with `current_length = len(self.chain)` and `new_chain = False`;
after the loop, if a candidate was adopted replace the chain and return
True, else return False. -/
def find_longest_chain (s : Blockchain) (responses : List PeerResponse) :
    Except Unit (Blockchain × Bool) :=
  match findLongestChainAux s none s.chain.length none responses with
  | Except.error e => Except.error e
  | Except.ok none => Except.ok (s, false)
  | Except.ok (some c) => Except.ok ({ s with chain := c }, true)

/- Concrete states used by the evaluation theorems and witnesses. -/

def emptyDict : String := lbrace ++ rbrace

def pd0 : PowerData :=
  { timestampStr := "t0", voltage_vector := ["1.0"], current_vector := ["0.1"],
    power_vector := ["0.1"], node_id := "n1", metadataStr := emptyDict }

def pd1 : PowerData :=
  { timestampStr := "t1", voltage_vector := ["2.0"], current_vector := ["0.2"],
    power_vector := ["0.4"], node_id := "n2", metadataStr := emptyDict }

/-- A genesis-like tail block with digest value 1 (valid for difficulty
255, whose target is 2^1 = 2). -/
def g : Block :=
  { block_number := 1, power_data := pd0, previous_hash := 7, nonce := 0, hashid := 1,
    timestamp := "tg" }

/-- A valid successor of `g` at difficulty 255. -/
def b1 : Block :=
  { block_number := 2, power_data := pd1, previous_hash := 1, nonce := 0, hashid := 0,
    timestamp := "tb" }

/-- A block violating both validation conditions, never mined. -/
def junk : Block :=
  { block_number := 99, power_data := pd0, previous_hash := 123, nonce := 5, hashid := 999999,
    timestamp := "tj" }

/-- Ledger at difficulty 255 (target 2) holding only `g`. -/
def sB : Blockchain := { difficulty := 255, chain := [g], pending_power_data := [] }

/-- `sB` with one pending record. -/
def s6 : Blockchain := { difficulty := 255, chain := [g], pending_power_data := [pd0] }

/-- `sB` with two pending records. -/
def s8 : Blockchain := { difficulty := 255, chain := [g], pending_power_data := [pd0, pd1] }

/-- Ledger whose only block is `junk`. -/
def sJ : Blockchain := { difficulty := 255, chain := [junk], pending_power_data := [] }

/-- Digest oracle hitting the boundary value: every digest equals
2 = 2^(256-255), exactly the target of difficulty 255. -/
def shaB : String → Nat := fun _ => 2

/-- Digest oracle returning 0, below every positive target. -/
def sha0 : String → Nat := fun _ => 0

def tsX : String := "tx"

/-- The block `mine_power_data` builds on `s6` (and on `s8` the payload is
`pd1` instead). -/
def bX : Block := mkBlock 2 pd0 g.hashid tsX

/-- The block mined out of `s8` by `sha0`. -/
def minedB : Block :=
  { block_number := 2, power_data := pd1, previous_hash := 1, nonce := 0, hashid := 0,
    timestamp := tsX }

/-- The post-state of mining `s8` with `sha0`. -/
def s8' : Blockchain := { difficulty := 255, chain := [g, minedB], pending_power_data := [pd0] }

/- Helper lemmas. -/

/-- `mine` changes only `nonce` and `hashid`: the other four fields of the
result are those of the input block. -/
lemma mine_preserves (sha : String → Nat) (d : Nat) :
    ∀ (fuel : Nat) (b b' : Block), mine sha d fuel b = some b' →
      b'.block_number = b.block_number ∧ b'.power_data = b.power_data ∧
      b'.previous_hash = b.previous_hash ∧ b'.timestamp = b.timestamp := by
  intro fuel
  induction fuel with
  | zero => intro b b' h; simp [mine] at h
  | succ n ih =>
    intro b b' h
    rw [mine] at h
    by_cases hc : sha (digestInput b) > target d
    · rw [if_pos hc] at h
      simpa using ih _ _ h
    · rw [if_neg hc] at h
      cases h
      exact ⟨rfl, rfl, rfl, rfl⟩

/-- The digest stored by `mine` is the oracle applied to the digest input
of the returned block (whose nonce is the winning nonce). -/
lemma mine_hash (sha : String → Nat) (d : Nat) :
    ∀ (fuel : Nat) (b b' : Block), mine sha d fuel b = some b' →
      b'.hashid = sha (digestInput b') := by
  intro fuel
  induction fuel with
  | zero => intro b b' h; simp [mine] at h
  | succ n ih =>
    intro b b' h
    rw [mine] at h
    by_cases hc : sha (digestInput b) > target d
    · rw [if_pos hc] at h
      exact ih _ _ h
    · rw [if_neg hc] at h
      cases h
      rfl

lemma pyIndex_ofNat (l : List Block) (j : Nat) : pyIndex l (j : Int) = l.get? j := by
  simp [pyIndex]

/-- `validateWalk s prev rest` checks exactly: every `rest[j]` has hash
below the target and links to its predecessor `(prev :: rest)[j]`. -/
lemma validateWalk_iff (s : Blockchain) :
    ∀ (rest : List Block) (prev : Block),
      validateWalk s prev rest = true ↔
        ∀ j, ∀ hj : j < rest.length,
          (rest.get ⟨j, hj⟩).hashid < target s.difficulty ∧
          (rest.get ⟨j, hj⟩).previous_hash =
            ((prev :: rest).get ⟨j, by simp only [List.length_cons]; omega⟩).hashid := by
  intro rest
  induction rest with
  | nil =>
    intro prev
    simp [validateWalk]
  | cons b rest' ih =>
    intro prev
    rw [validateWalk]
    by_cases hP : b.hashid < target s.difficulty ∧ b.previous_hash = prev.hashid
    · rw [if_pos hP, ih b]
      constructor
      · intro hall j hj
        cases j with
        | zero => exact hP
        | succ j' =>
          have hj' : j' < rest'.length := by
            simpa [List.length_cons, Nat.succ_lt_succ_iff] using hj
          exact hall j' hj'
      · intro hall j hj
        exact hall (j + 1) (by simpa [List.length_cons, Nat.succ_lt_succ_iff] using hj)
    · rw [if_neg hP]
      constructor
      · intro h; exact absurd h (by simp)
      · intro hall
        exact absurd (hall 0 (by simp)) hP

/-- Index-level characterisation of `validate_another_chain`. -/
lemma validate_another_chain_iff (s : Blockchain) (c : List Block) :
    validate_another_chain s c = true ↔
      ∀ i, 1 ≤ i → ∀ h2 : i < c.length,
        (c.get ⟨i, h2⟩).hashid < target s.difficulty ∧
        (c.get ⟨i, h2⟩).previous_hash = (c.get ⟨i - 1, by omega⟩).hashid := by
  cases c with
  | nil => simp [validate_another_chain]
  | cons gb rest =>
    rw [validate_another_chain, validateWalk_iff]
    constructor
    · intro hall i hi h2
      cases i with
      | zero => omega
      | succ j =>
        have hj : j < rest.length := by
          simpa [List.length_cons, Nat.succ_lt_succ_iff] using h2
        exact hall j hj
    · intro hall j hj
      exact hall (j + 1) (by omega) (by simpa [List.length_cons, Nat.succ_lt_succ_iff] using hj)

lemma validateChainGo_eq_walk (s : Blockchain) :
    ∀ (rest : List Block) (i : Nat) (prev : Block), 1 ≤ i →
      s.chain.get? (i - 1) = some prev → s.chain.drop i = rest →
      validateChainGo s i rest = validateWalk s prev rest := by
  intro rest
  induction rest with
  | nil => intro i prev _ _ _; rfl
  | cons b rest' ih =>
    intro i prev hi hget hdrop
    have hcast : (i : Int) - 1 = ((i - 1 : Nat) : Int) := by omega
    have hpow : proof_of_work s b ((i : Int) - 1) =
        decide (b.hashid < target s.difficulty ∧ b.previous_hash = prev.hashid) := by
      rw [proof_of_work, hcast, pyIndex_ofNat, hget]
    have hgeti : s.chain.get? i = some b := by
      have := List.get?_drop s.chain i 0
      rw [hdrop] at this
      simpa using this.symm
    have hdrop' : s.chain.drop (i + 1) = rest' := by
      have := List.tail_drop s.chain i
      rw [hdrop] at this
      simpa using this.symm
    rw [validateChainGo, validateWalk, hpow]
    by_cases hP : b.hashid < target s.difficulty ∧ b.previous_hash = prev.hashid
    · rw [if_pos (by simpa using hP), if_pos hP]
      exact ih (i + 1) b (by omega) (by simpa using hgeti) hdrop'
    · rw [if_neg (by simpa using hP), if_neg hP]

/-- `validate_chain` computes the same boolean as `validate_another_chain`
applied to the node's own chain. -/
lemma validate_chain_eq (s : Blockchain) :
    validate_chain s = validate_another_chain s s.chain := by
  cases hc : s.chain with
  | nil =>
    rw [validate_chain, validate_another_chain, hc]
    rfl
  | cons gb rest =>
    rw [validate_chain, validate_another_chain]
    rw [hc]
    have := validateChainGo_eq_walk s rest 1 gb (by omega)
      (by rw [hc]; rfl) (by rw [hc]; rfl)
    simpa [hc] using this

/-- Invariant of the `find_longest_chain` loop when every fetch succeeds:
the run ends without error; the running best length only grows and ends at
least as large as every validated peer's reported length; and either
nothing was adopted (state variables unchanged) or the adopted candidate
is some peer's validated chain whose reported length is the final best
length, strictly above the starting length. -/
lemma findLongestChainAux_spec (s : Blockchain) :
    ∀ (rs : List PeerResponse) (ld : Option (List Block × Nat)) (cl : Nat)
      (nc : Option (List Block)),
      (∀ r ∈ rs, r ≠ none) →
      ∃ cl' nc',
        findLongestChainAux s ld cl nc rs = Except.ok nc' ∧ cl ≤ cl' ∧
        (∀ c l, some (c, l) ∈ rs → validate_another_chain s c = true → l ≤ cl') ∧
        ((nc' = nc ∧ cl' = cl) ∨
          ∃ c l, some (c, l) ∈ rs ∧ validate_another_chain s c = true ∧
            nc' = some c ∧ cl' = l ∧ cl < l) := by
  intro rs
  induction rs with
  | nil =>
    intro ld cl nc _
    exact ⟨cl, nc, rfl, le_refl _, by simp, Or.inl ⟨rfl, rfl⟩⟩
  | cons r rest ih =>
    intro ld cl nc hall
    have hall' : ∀ r' ∈ rest, r' ≠ none := fun r' hr' => hall r' (List.mem_cons_of_mem _ hr')
    cases r with
    | none => exact absurd rfl (hall none (List.mem_cons_self _ _))
    | some p =>
      obtain ⟨c, l⟩ := p
      by_cases hcond : cl < l ∧ validate_another_chain s c = true
      · obtain ⟨cl', nc', heq, hle, hbound, hdisj⟩ := ih (some (c, l)) l (some c) hall'
        refine ⟨cl', nc', ?_, le_trans (le_of_lt hcond.1) hle, ?_, ?_⟩
        · rw [findLongestChainAux, if_pos hcond]
          exact heq
        · intro c0 l0 hmem hval
          rcases List.mem_cons.mp hmem with h0 | h0
          · obtain ⟨rfl, rfl⟩ : c0 = c ∧ l0 = l := by
              constructor <;> [exact congrArg Prod.fst (Option.some.inj h0);
                exact congrArg Prod.snd (Option.some.inj h0)]
            exact hle
          · exact hbound c0 l0 h0 hval
        · rcases hdisj with ⟨hnc, hcl⟩ | ⟨c0, l0, hmem, hval, hnc, hcl, hlt⟩
          · exact Or.inr ⟨c, l, List.mem_cons_self _ _, hcond.2, by rw [hnc],
              by rw [hcl], hcond.1⟩
          · exact Or.inr ⟨c0, l0, List.mem_cons_of_mem _ hmem, hval, hnc, hcl,
              lt_trans hcond.1 hlt⟩
      · obtain ⟨cl', nc', heq, hle, hbound, hdisj⟩ := ih (some (c, l)) cl nc hall'
        refine ⟨cl', nc', ?_, hle, ?_, ?_⟩
        · rw [findLongestChainAux, if_neg hcond]
          exact heq
        · intro c0 l0 hmem hval
          rcases List.mem_cons.mp hmem with h0 | h0
          · obtain ⟨rfl, rfl⟩ : c0 = c ∧ l0 = l := by
              constructor <;> [exact congrArg Prod.fst (Option.some.inj h0);
                exact congrArg Prod.snd (Option.some.inj h0)]
            have hnl : ¬ cl < l0 := fun hlt => hcond ⟨hlt, hval⟩
            omega
          · exact hbound c0 l0 h0 hval
        · rcases hdisj with hl | ⟨c0, l0, hmem, hval, hnc, hcl, hlt⟩
          · exact Or.inl hl
          · exact Or.inr ⟨c0, l0, List.mem_cons_of_mem _ hmem, hval, hnc, hcl, hlt⟩

/-- Neither branch of `add_to_chain` touches the pending queue. -/
lemma add_to_chain_pending (s : Blockchain) (b : Block) :
    (add_to_chain s b).2.pending_power_data = s.pending_power_data := by
  rw [add_to_chain]
  by_cases h : proof_of_work s b (-1) = true
  · rw [if_pos h]
  · rw [if_neg h]

/-- When `add_to_chain` rejects, the returned state is the input state. -/
lemma add_to_chain_failed_noop (s : Blockchain) (b : Block) :
    (add_to_chain s b).1 = AddResult.failed → (add_to_chain s b).2 = s := by
  rw [add_to_chain]
  by_cases h : proof_of_work s b (-1) = true
  · rw [if_pos h]; intro hk; exact absurd hk (by simp)
  · rw [if_neg h]; intro _; rfl

/- Claim theorems. -/

/-- Claim C1.  The claim states that after `mine` returns, the stored hash
is strictly below `2^(256 - d)` and `proof_of_work` accepts the block
against its actual predecessor.  The code's loop keeps searching only
while the digest is strictly GREATER than the target, so a digest equal
to `2^(256 - d)` is accepted by `mine` and then rejected by the strict
check of `proof_of_work` / `add_to_chain`: with difficulty 255 (target
`2^1 = 2`) and a digest oracle returning the boundary value 2, mining the
correctly linked block `bX` stops at once with hash 2, which is not below
the target, and the freshly mined block fails its own node's append
gate. -/
theorem claim_C1_boundary :
    mine shaB 255 1 bX = some { bX with hashid := 2 } ∧
    target 255 = 2 ∧
    ({ bX with hashid := 2 } : Block).previous_hash = g.hashid ∧
    proof_of_work sB { bX with hashid := 2 } (-1) = false ∧
    add_to_chain sB { bX with hashid := 2 } = (AddResult.failed, sB) :=
  ⟨rfl, rfl, rfl, rfl, rfl⟩

/-- Claim C2.  Chain validation returns true exactly when every block at
index `i ≥ 1` has hash value strictly below `2^(256 - difficulty)` and a
`previous_hash` equal to the hash of the block at index `i - 1` (the
genesis block at index 0 is never checked); and `validate_chain` computes
the same boolean as `validate_another_chain` on the node's own chain. -/
theorem claim_C2_validate (s : Blockchain) (c : List Block) :
    (validate_another_chain s c = true ↔
      ∀ i, 1 ≤ i → ∀ h2 : i < c.length,
        (c.get ⟨i, h2⟩).hashid < target s.difficulty ∧
        (c.get ⟨i, h2⟩).previous_hash = (c.get ⟨i - 1, by omega⟩).hashid) ∧
    validate_chain s = validate_another_chain s s.chain :=
  ⟨validate_another_chain_iff s c, validate_chain_eq s⟩

/-- Claim C3 (amended to response sets in which every peer fetch
succeeds; a failing fetch aborts or re-evaluates stale data, see C7).
For such responses the consensus procedure returns true exactly when some
peer's chain validates and has reported length strictly above the local
length; on false the state is untouched; on true the adopted chain is
some peer's validated chain whose reported length exceeds the local
length and is maximal among all validated peers' reported lengths. -/
theorem claim_C3_adoption (s : Blockchain) (responses : List PeerResponse)
    (hs : ∀ r ∈ responses, r ≠ none) :
    ∃ st b, find_longest_chain s responses = Except.ok (st, b) ∧
      (b = false → st = s) ∧
      (b = true ↔ ∃ c l, some (c, l) ∈ responses ∧ validate_another_chain s c = true ∧
        s.chain.length < l) ∧
      (b = true → ∃ c l, some (c, l) ∈ responses ∧ validate_another_chain s c = true ∧
        s.chain.length < l ∧ st = { s with chain := c } ∧
        ∀ c' l', some (c', l') ∈ responses → validate_another_chain s c' = true → l' ≤ l) := by
  obtain ⟨cl', nc', heq, hle, hbound, hdisj⟩ :=
    findLongestChainAux_spec s responses none s.chain.length none hs
  cases nc' with
  | none =>
    refine ⟨s, false, ?_, fun _ => rfl, ?_, by simp⟩
    · rw [find_longest_chain, heq]
    · constructor
      · intro h; exact absurd h (by simp)
      · rintro ⟨c, l, hmem, hval, hl⟩
        rcases hdisj with ⟨_, hcl⟩ | ⟨c0, l0, _, _, hnc, _, _⟩
        · have := hbound c l hmem hval
          omega
        · exact absurd hnc (by simp)
  | some c =>
    rcases hdisj with ⟨hnc, _⟩ | ⟨c0, l0, hmem, hval, hnc, hcl, hlt⟩
    · exact absurd hnc (by simp)
    · have hcc : c = c0 := Option.some.inj hnc
      subst hcc
      refine ⟨{ s with chain := c }, true, ?_, by simp, ?_, ?_⟩
      · rw [find_longest_chain, heq]
      · exact ⟨fun _ => ⟨c, l0, hmem, hval, hlt⟩, fun _ => rfl⟩
      · intro _
        refine ⟨c, l0, hmem, hval, hlt, rfl, ?_⟩
        intro c' l' hmem' hval'
        have := hbound c' l' hmem' hval'
        omega

/-- Counterexample to claim C3 as stated for arbitrary response sets: on a
single failed fetch the procedure neither adopts nor returns false — it
raises (the source reads the unbound local `length`), so "returns false
otherwise" fails. -/
theorem claim_C3_counterexample :
    find_longest_chain sB [none] = Except.error () ∧
    find_longest_chain sB [none] ≠ Except.ok (sB, false) :=
  ⟨rfl, fun h => Except.noConfusion (Eq.mpr (congrArg (fun x => x = Except.ok (sB, false))
    (rfl : find_longest_chain sB [none] = Except.error ())) h)⟩

/-- Witness for claim C3: a single successful peer offering the valid
two-block chain `[g, b1]` with reported length 2 against the length-1
local chain `sB`. -/
theorem claim_C3_witness :
    ∃ st b, find_longest_chain sB [some ([g, b1], 2)] = Except.ok (st, b) ∧
      (b = false → st = sB) ∧
      (b = true ↔ ∃ c l, some (c, l) ∈ ([some ([g, b1], 2)] : List PeerResponse) ∧
        validate_another_chain sB c = true ∧ sB.chain.length < l) ∧
      (b = true → ∃ c l, some (c, l) ∈ ([some ([g, b1], 2)] : List PeerResponse) ∧
        validate_another_chain sB c = true ∧ sB.chain.length < l ∧
        st = { sB with chain := c } ∧
        ∀ c' l', some (c', l') ∈ ([some ([g, b1], 2)] : List PeerResponse) →
          validate_another_chain sB c' = true → l' ≤ l) := by
  refine claim_C3_adoption sB [some ([g, b1], 2)] ?_
  intro r hr
  rw [List.mem_singleton] at hr
  subst hr
  simp

/-- Claim C4.  The claim states reconciliation never shortens the local
chain, explicitly including peers whose reported length differs from the
actual length of the chain they send.  The code compares the REPORTED
length but adopts the SENT chain: a peer reporting length 10 while
sending the empty chain (which validates vacuously) replaces the length-1
local chain with a length-0 chain. -/
theorem claim_C4_shorten :
    find_longest_chain sB [some ([], 10)] = Except.ok ({ sB with chain := [] }, true) ∧
    validate_another_chain sB [] = true ∧
    ({ sB with chain := ([] : List Block) } : Blockchain).chain.length < sB.chain.length :=
  ⟨rfl, rfl, by simp [sB]⟩

/-- Claim C5.  The stored hash of a mined block is the digest oracle
applied to the concatenation, in this fixed order, of: the winning nonce
as decimal text, the canonical serialization of the telemetry payload,
the previous hash as (hex) text, the block's creation timestamp text, and
the block number as decimal text — so re-running the digest computation
on the unmodified block with its stored nonce reproduces the stored
hash. -/
theorem claim_C5_digest (sha : String → Nat) (d : Nat) (fuel : Nat) (b b' : Block)
    (h : mine sha d fuel b = some b') :
    b'.hashid = sha (Nat.repr b'.nonce ++ powerDataRepr b'.power_data
      ++ hexDigest b'.previous_hash ++ b'.timestamp ++ Nat.repr b'.block_number) :=
  mine_hash sha d fuel b b' h

/-- Witness for claim C5 at the concrete block `bX` mined with the zero
oracle at difficulty 255. -/
theorem claim_C5_witness :
    (mine sha0 255 1 bX = some { bX with hashid := 0 }) ∧
    ({ bX with hashid := 0 } : Block).hashid =
      sha0 (Nat.repr ({ bX with hashid := 0 } : Block).nonce
        ++ powerDataRepr ({ bX with hashid := 0 } : Block).power_data
        ++ hexDigest ({ bX with hashid := 0 } : Block).previous_hash
        ++ ({ bX with hashid := 0 } : Block).timestamp
        ++ Nat.repr ({ bX with hashid := 0 } : Block).block_number) :=
  ⟨rfl, claim_C5_digest sha0 255 1 bX { bX with hashid := 0 } rfl⟩

/-- Claim C6 (amended).  A failed `add_to_chain` leaves the whole state
unchanged; mining with an empty pending queue returns the no-pending
sentinel with the state unchanged; but a mining attempt whose append is
rejected has already popped the record: the chain and the difficulty are
unchanged while the pending queue has lost its last record (the pop at
src/blockchain.py line 189 precedes the validation gate and is never
undone). -/
theorem claim_C6_amended (sha : String → Nat) (fuel : Nat) (s : Blockchain) (ts : String) :
    (∀ b : Block, (add_to_chain s b).1 = AddResult.failed → (add_to_chain s b).2 = s) ∧
    (s.pending_power_data = [] → mine_power_data sha fuel s ts = some (MineOutcome.noPending, s)) ∧
    (∀ r s', mine_power_data sha fuel s ts = some (r, s') →
      r = MineOutcome.fromAdd AddResult.failed →
      s'.chain = s.chain ∧ s'.difficulty = s.difficulty ∧
      s'.pending_power_data = s.pending_power_data.dropLast) := by
  refine ⟨fun b => add_to_chain_failed_noop s b, ?_, ?_⟩
  · intro he
    rw [mine_power_data, if_neg (by rw [he]; simp)]
  · intro r s' h hr
    subst hr
    by_cases hne : s.pending_power_data = []
    · rw [mine_power_data, if_neg (by rw [hne]; simp)] at h
      simp only [Option.some.injEq, Prod.mk.injEq] at h
      exact absurd h.1.symm (by simp)
    · have hlen : 0 < s.pending_power_data.length := List.length_pos.mpr hne
      rw [mine_power_data, if_pos hlen] at h
      cases hp : s.pending_power_data.getLast? with
      | none => rw [hp] at h; simp at h
      | some data =>
        cases hc : s.chain.getLast? with
        | none => rw [hp, hc] at h; simp at h
        | some tl =>
          rw [hp, hc] at h
          simp only at h
          cases hm : mine sha s.difficulty fuel
              (mkBlock (s.chain.length + 1) data tl.hashid ts) with
          | none => rw [hm] at h; exact Option.noConfusion h
          | some mined =>
            rw [hm] at h
            simp only [Option.some.injEq, Prod.mk.injEq] at h
            obtain ⟨hr1, hs'⟩ := h
            have hfail : (add_to_chain
                { s with pending_power_data := s.pending_power_data.dropLast } mined).1 =
                AddResult.failed := MineOutcome.fromAdd.inj hr1
            have hnoop := add_to_chain_failed_noop _ mined hfail
            rw [← hs', hnoop]
            exact ⟨rfl, rfl, rfl⟩

/-- Counterexample to claim C6 as stated: with the boundary digest oracle
the mining attempt's append is rejected, yet the pending queue is not as
it was before the attempt — the popped record is lost. -/
theorem claim_C6_counterexample :
    mine_power_data shaB 1 s6 tsX =
      some (MineOutcome.fromAdd AddResult.failed, { s6 with pending_power_data := [] }) ∧
    s6.pending_power_data = [pd0] ∧
    ({ s6 with pending_power_data := [] } : Blockchain).pending_power_data ≠
      s6.pending_power_data := by
  refine ⟨rfl, rfl, ?_⟩
  simp [s6]

/-- Witness for claim C6 on the concrete rejected-append run out of
`s6`. -/
theorem claim_C6_witness :
    ({ s6 with pending_power_data := [] } : Blockchain).chain = s6.chain ∧
    ({ s6 with pending_power_data := [] } : Blockchain).difficulty = s6.difficulty ∧
    ({ s6 with pending_power_data := [] } : Blockchain).pending_power_data =
      s6.pending_power_data.dropLast :=
  (claim_C6_amended shaB 1 s6 tsX).2.2 (MineOutcome.fromAdd AddResult.failed)
    { s6 with pending_power_data := [] } rfl rfl

/-- Claim C7.  The claim says a fetch failure for one peer is skipped and
the remaining peers are still considered.  In the code a failed first
fetch leaves the loop's `chain` and `length` variables unbound, so the
whole procedure aborts before reaching the second peer — even though that
same second peer, alone, would have produced a replacement. -/
theorem claim_C7_abort :
    find_longest_chain sB [none, some ([g, b1], 2)] = Except.error () ∧
    find_longest_chain sB [some ([g, b1], 2)] =
      Except.ok ({ sB with chain := [g, b1] }, true) :=
  ⟨rfl, rfl⟩

/-- Claim C8.  With a non-empty pending queue (last record `data`) and a
non-empty chain (tail `tl`), a completed `mine_power_data` call pops
exactly the most recently submitted record, builds a block numbered
`len(chain) + 1` whose `previous_hash` is the tail's hash, mines it,
hands the result to the `add_to_chain` gate, and leaves the pending queue
exactly one record shorter. -/
theorem claim_C8_mine_next (sha : String → Nat) (fuel : Nat) (s : Blockchain) (ts : String)
    (data : PowerData) (tl : Block) (r : MineOutcome) (s' : Blockchain)
    (hp : s.pending_power_data.getLast? = some data)
    (hc : s.chain.getLast? = some tl)
    (h : mine_power_data sha fuel s ts = some (r, s')) :
    ∃ mined,
      mine sha s.difficulty fuel (mkBlock (s.chain.length + 1) data tl.hashid ts) = some mined ∧
      mined.block_number = s.chain.length + 1 ∧
      mined.power_data = data ∧
      mined.previous_hash = tl.hashid ∧
      r = MineOutcome.fromAdd
        (add_to_chain { s with pending_power_data := s.pending_power_data.dropLast } mined).1 ∧
      s' = (add_to_chain { s with pending_power_data := s.pending_power_data.dropLast } mined).2 ∧
      s'.pending_power_data = s.pending_power_data.dropLast ∧
      s'.pending_power_data.length + 1 = s.pending_power_data.length := by
  have hne : s.pending_power_data ≠ [] := by
    intro e; rw [e] at hp; exact Option.noConfusion hp
  have hlen : 0 < s.pending_power_data.length := List.length_pos.mpr hne
  rw [mine_power_data, if_pos hlen, hp, hc] at h
  simp only at h
  cases hm : mine sha s.difficulty fuel (mkBlock (s.chain.length + 1) data tl.hashid ts) with
  | none => rw [hm] at h; exact Option.noConfusion h
  | some mined =>
    rw [hm] at h
    simp only [Option.some.injEq, Prod.mk.injEq] at h
    obtain ⟨hr, hs'⟩ := h
    have hpres := mine_preserves sha s.difficulty fuel _ _ hm
    refine ⟨mined, rfl, ?_, ?_, ?_, hr.symm, hs'.symm, ?_, ?_⟩
    · exact hpres.1
    · exact hpres.2.1
    · exact hpres.2.2.1
    · rw [← hs', add_to_chain_pending]
    · rw [← hs', add_to_chain_pending]
      simp only [List.length_dropLast]
      omega

/-- Witness for claim C8: mining the two-record queue of `s8` with the
zero oracle pops `pd1` (the most recent record, not `pd0`), appends the
mined block, and leaves `pd0` pending. -/
theorem claim_C8_witness :
    ∃ mined,
      mine sha0 s8.difficulty 1 (mkBlock (s8.chain.length + 1) pd1 g.hashid tsX) = some mined ∧
      mined.block_number = s8.chain.length + 1 ∧
      mined.power_data = pd1 ∧
      mined.previous_hash = g.hashid ∧
      MineOutcome.fromAdd (AddResult.added minedB) = MineOutcome.fromAdd
        (add_to_chain { s8 with pending_power_data := s8.pending_power_data.dropLast } mined).1 ∧
      s8' = (add_to_chain { s8 with pending_power_data := s8.pending_power_data.dropLast } mined).2 ∧
      s8'.pending_power_data = s8.pending_power_data.dropLast ∧
      s8'.pending_power_data.length + 1 = s8.pending_power_data.length :=
  claim_C8_mine_next sha0 1 s8 tsX pd1 g (MineOutcome.fromAdd (AddResult.added minedB)) s8'
    rfl rfl rfl

/-- Claim C9.  Mining mutates only the nonce and the hash: the block
number, the telemetry payload, the previous hash and the construction
timestamp of the returned block are those of the input block. -/
theorem claim_C9_frame (sha : String → Nat) (d : Nat) (fuel : Nat) (b b' : Block)
    (h : mine sha d fuel b = some b') :
    b'.block_number = b.block_number ∧ b'.power_data = b.power_data ∧
    b'.previous_hash = b.previous_hash ∧ b'.timestamp = b.timestamp :=
  mine_preserves sha d fuel b b' h

/-- Witness for claim C9 on the concrete mining run of `bX`. -/
theorem claim_C9_witness :
    ({ bX with hashid := 0 } : Block).block_number = bX.block_number ∧
    ({ bX with hashid := 0 } : Block).power_data = bX.power_data ∧
    ({ bX with hashid := 0 } : Block).previous_hash = bX.previous_hash ∧
    ({ bX with hashid := 0 } : Block).timestamp = bX.timestamp :=
  claim_C9_frame sha0 255 1 bX { bX with hashid := 0 } rfl

/-- Claim C10.  Both validation walks start at index 1, so a chain of
length 0 or 1 validates regardless of content: the first block's hash is
never compared with the target and its `previous_hash` is never
inspected. -/
theorem claim_C10_short (s : Blockchain) (c : List Block) (hc : c.length ≤ 1)
    (s1 : Blockchain) (h1 : s1.chain.length ≤ 1) :
    validate_another_chain s c = true ∧ validate_chain s1 = true := by
  constructor
  · cases c with
    | nil => rfl
    | cons b rest =>
      cases rest with
      | nil => rfl
      | cons b2 rest2 => simp [List.length_cons] at hc
  · rw [validate_chain, List.drop_eq_nil_of_le h1]
    rfl

/-- Witness for claim C10: the singleton chain holding `junk` (wrong hash,
wrong link, never mined) validates both ways. -/
theorem claim_C10_witness :
    validate_another_chain sB [junk] = true ∧ validate_chain sJ = true :=
  claim_C10_short sB [junk] (by simp) sJ (by simp [sJ])

end PBC
